import Mathlib

set_option maxHeartbeats 1000000

/-
Verification development for the itui terminal-rendering core.

The files src/widgets/block.rs and src/widgets/paragraph.rs are translated
directly.  Supporting repository modules that are not available
(layout.rs, buffer.rs, style.rs, widgets/reflow.rs, the Widget trait) are
modelled from the specification, as marked on each definition.  Strings are
represented as lists of grapheme clusters carrying their terminal display
width, since Unicode segmentation and width tables live in external crates.
Event callbacks are represented by numeric identifiers.
-/

namespace Itui

/-- Modelled from the spec: the Rectangle type of layout.rs (not under src/),
integer x, y, width, height with origin top-left. -/
structure Rect where
  x : Nat
  y : Nat
  width : Nat
  height : Nat
  deriving DecidableEq, Repr

def Rect.left (r : Rect) : Nat := r.x

def Rect.right (r : Rect) : Nat := r.x + r.width

def Rect.top (r : Rect) : Nat := r.y

def Rect.bottom (r : Rect) : Nat := r.y + r.height

/-- Modelled from the spec: point containment on the half-open box
[left, right) x [top, bottom). -/
def Rect.hit (r : Rect) (px py : Nat) : Bool :=
  decide (r.left ≤ px ∧ px < r.right ∧ r.top ≤ py ∧ py < r.bottom)

/-- Modelled from the spec: the Style value of style.rs (not under src/),
optional foreground, optional background, attribute flags.  Colors and
attribute flags are represented by naturals. -/
structure Style where
  fg : Option Nat
  bg : Option Nat
  modifier : Nat
  deriving DecidableEq, Repr

def Style.mkDefault : Style := ⟨none, none, 0⟩

/-- Modelled from the spec: the Borders bitset of widgets/mod.rs (not under
src/), one bit per edge. -/
structure Borders where
  left : Bool
  right : Bool
  top : Bool
  bottom : Bool
  deriving DecidableEq, Repr

def Borders.NONE : Borders := ⟨false, false, false, false⟩

def Borders.LEFT : Borders := ⟨true, false, false, false⟩

def Borders.RIGHT : Borders := ⟨false, true, false, false⟩

def Borders.TOP : Borders := ⟨false, false, true, false⟩

def Borders.BOTTOM : Borders := ⟨false, false, false, true⟩

/-- Modelled from the spec: bitwise union of two border sets. -/
def Borders.or (a b : Borders) : Borders :=
  ⟨a.left || b.left, a.right || b.right, a.top || b.top, a.bottom || b.bottom⟩

/-- Modelled from the spec: true when some bit is set in both operands. -/
def Borders.intersects (a b : Borders) : Bool :=
  (a.left && b.left) || (a.right && b.right) || (a.top && b.top) || (a.bottom && b.bottom)

/-- Modelled from the spec: true when every bit of the second operand is set
in the first. -/
def Borders.contains (a b : Borders) : Bool :=
  (!b.left || a.left) && (!b.right || a.right) && (!b.top || a.top) && (!b.bottom || a.bottom)

/-- Grapheme cluster together with its terminal display width; the
segmentation and width measurement of the external Unicode crates are taken
as given. -/
structure Grapheme where
  symbol : String
  width : Nat
  deriving DecidableEq, Repr

/-- Modelled from the spec: a cell of the Cell Buffer holds one grapheme
cluster and its style. -/
structure Cell where
  symbol : String
  style : Style
  deriving DecidableEq, Repr

/-- Modelled from the spec: the Cell Buffer of buffer.rs (not under src/),
represented extensionally as the contents of every coordinate. -/
structure Buffer where
  get : Nat → Nat → Cell

/-- Writing one cell: the get_mut(x, y).set_symbol(s).set_style(st) idiom of
the source, which replaces both the symbol and the style of the cell. -/
def Buffer.set (b : Buffer) (x y : Nat) (s : String) (st : Style) : Buffer :=
  ⟨fun px py => if px = x ∧ py = y then ⟨s, st⟩ else b.get px py⟩

/-- Modelled from the spec: set_stringn writes as many leading graphemes of
the text as fit within the width budget starting at (x, y), stopping early
when the text or the budget is exhausted, and applies the given style to
every written cell. -/
def set_stringn (b : Buffer) (x y : Nat) (text : List Grapheme) (budget : Nat)
    (st : Style) : Buffer :=
  match text with
  | [] => b
  | g :: rest =>
    if budget = 0 then b
    else if g.width ≤ budget then
      set_stringn (b.set x y g.symbol st) (x + g.width) y rest (budget - g.width) st
    else b

/-- Modelled from the spec: background fill paints the background color of
every cell of the rectangle, leaving symbols unchanged; an absent color
leaves the buffer unchanged. -/
def fillBackground (b : Buffer) (r : Rect) (c : Option Nat) : Buffer :=
  match c with
  | none => b
  | some col =>
    ⟨fun px py =>
      if r.hit px py then ⟨(b.get px py).symbol, ⟨(b.get px py).style.fg, some col, (b.get px py).style.modifier⟩⟩
      else b.get px py⟩

namespace line

def VERTICAL : String := "│"

def HORIZONTAL : String := "─"

def TOP_LEFT : String := "┌"

def TOP_RIGHT : String := "┐"

def BOTTOM_LEFT : String := "└"

def BOTTOM_RIGHT : String := "┘"

end line

/-- Event attribute registered on a widget: an event-kind name and the
callback it carries.  This models the listener attributes of the external
sauron_vdom crate, with callbacks as numeric identifiers. -/
structure EventAttribute where
  name : String
  callback : Nat
  deriving DecidableEq, Repr

/-- Pointer events of the external sauron_vdom crate: a mouse event carries
its kind (string-keyed) and integer coordinates; other events are summarised
by one further constructor, which triggers_event ignores. -/
inductive Event where
  | mouseEvent (kind : String) (x y : Nat)
  | keyEvent
  deriving DecidableEq, Repr

/-- First listener whose name equals the event kind, in registration order:
the loop body of triggers_event in block.rs and paragraph.rs. -/
def findMatch (kind : String) : List EventAttribute → Option Nat
  | [] => none
  | l :: ls => if kind = l.name then some l.callback else findMatch kind ls

/-- The Block widget of src/widgets/block.rs. -/
structure Block where
  title : Option (List Grapheme)
  title_style : Style
  borders : Borders
  border_style : Style
  style : Style
  area : Rect
  events : List EventAttribute

/-- Translation of Block::triggers_event (block.rs lines 92 to 110). -/
def Block.triggers_event (blk : Block) (e : Event) : Option Nat :=
  match e with
  | Event.mouseEvent kind x y =>
    if blk.area.hit x y then findMatch kind blk.events else none
  | Event.keyEvent => none

/-- Translation of Block::inner (block.rs lines 113 to 133). -/
def Block.inner (blk : Block) : Rect :=
  if blk.area.width < 2 ∨ blk.area.height < 2 then ⟨0, 0, 0, 0⟩
  else
    let i1 :=
      if blk.borders.intersects Borders.LEFT then
        ⟨blk.area.x + 1, blk.area.y, blk.area.width - 1, blk.area.height⟩
      else blk.area
    let i2 :=
      if blk.borders.intersects Borders.TOP || blk.title.isSome then
        ⟨i1.x, i1.y + 1, i1.width, i1.height - 1⟩
      else i1
    let i3 :=
      if blk.borders.intersects Borders.RIGHT then
        ⟨i2.x, i2.y, i2.width - 1, i2.height⟩
      else i2
    if blk.borders.intersects Borders.BOTTOM then
      ⟨i3.x, i3.y, i3.width, i3.height - 1⟩
    else i3

/-- Vertical run of the VERTICAL glyph: the for-loop over rows used for the
LEFT and RIGHT edges in Block::draw, with the row count passed explicitly. -/
def vline (buf : Buffer) (x y : Nat) (n : Nat) (st : Style) : Buffer :=
  match n with
  | 0 => buf
  | Nat.succ m => vline (buf.set x y line.VERTICAL st) x (y + 1) m st

/-- Horizontal run of the HORIZONTAL glyph: the for-loop over columns used
for the TOP and BOTTOM edges in Block::draw, with the column count passed
explicitly. -/
def hline (buf : Buffer) (x y : Nat) (n : Nat) (st : Style) : Buffer :=
  match n with
  | 0 => buf
  | Nat.succ m => hline (buf.set x y line.HORIZONTAL st) (x + 1) y m st

/-- Background step of Block::draw (block.rs line 146): fill the area with
the widget style background. -/
def drawBackground (blk : Block) (buf : Buffer) : Buffer :=
  fillBackground buf blk.area blk.style.bg

/-- Edge step of Block::draw (block.rs lines 149 to 178). -/
def drawSides (blk : Block) (buf : Buffer) : Buffer :=
  let b1 :=
    if blk.borders.intersects Borders.LEFT then
      vline buf blk.area.left blk.area.top blk.area.height blk.border_style
    else buf
  let b2 :=
    if blk.borders.intersects Borders.TOP then
      hline b1 blk.area.left blk.area.top blk.area.width blk.border_style
    else b1
  let b3 :=
    if blk.borders.intersects Borders.RIGHT then
      vline b2 (blk.area.right - 1) blk.area.top blk.area.height blk.border_style
    else b2
  if blk.borders.intersects Borders.BOTTOM then
    hline b3 blk.area.left (blk.area.bottom - 1) blk.area.width blk.border_style
  else b3

/-- Corner step of Block::draw (block.rs lines 181 to 200). -/
def drawCorners (blk : Block) (buf : Buffer) : Buffer :=
  let b1 :=
    if blk.borders.contains (Borders.or Borders.LEFT Borders.TOP) then
      buf.set blk.area.left blk.area.top line.TOP_LEFT blk.border_style
    else buf
  let b2 :=
    if blk.borders.contains (Borders.or Borders.RIGHT Borders.TOP) then
      b1.set (blk.area.right - 1) blk.area.top line.TOP_RIGHT blk.border_style
    else b1
  let b3 :=
    if blk.borders.contains (Borders.or Borders.LEFT Borders.BOTTOM) then
      b2.set blk.area.left (blk.area.bottom - 1) line.BOTTOM_LEFT blk.border_style
    else b2
  if blk.borders.contains (Borders.or Borders.RIGHT Borders.BOTTOM) then
    b3.set (blk.area.right - 1) (blk.area.bottom - 1) line.BOTTOM_RIGHT blk.border_style
  else b3

/-- The column reserved for the LEFT border by the title code of
Block::draw. -/
def Block.lx (blk : Block) : Nat :=
  if blk.borders.intersects Borders.LEFT then 1 else 0

/-- The column reserved for the RIGHT border by the title code of
Block::draw. -/
def Block.rx (blk : Block) : Nat :=
  if blk.borders.intersects Borders.RIGHT then 1 else 0

/-- Title step of Block::draw (block.rs lines 202 to 223). -/
def drawTitle (blk : Block) (buf : Buffer) : Buffer :=
  if 2 < blk.area.width then
    match blk.title with
    | some t =>
      set_stringn buf (blk.area.left + blk.lx) blk.area.top t
        (blk.area.width - blk.lx - blk.rx) blk.title_style
    | none => buf
  else buf

/-- Translation of Block::draw (block.rs lines 141 to 224): early return on
undersized areas, then background, edges, corners and title in sequence. -/
def Block.draw (blk : Block) (buf : Buffer) : Buffer :=
  if blk.area.width < 2 ∨ blk.area.height < 2 then buf
  else drawTitle blk (drawCorners blk (drawSides blk (drawBackground blk buf)))

/-- Mirror of set_stringn used to characterise which cell, if any, the call
writes at a given coordinate. -/
def stringnWrite? (x y : Nat) (text : List Grapheme) (budget : Nat) (st : Style)
    (px py : Nat) : Option Cell :=
  match text with
  | [] => none
  | g :: rest =>
    if budget = 0 then none
    else if g.width ≤ budget then
      match stringnWrite? (x + g.width) y rest (budget - g.width) st px py with
      | some c => some c
      | none => if px = x ∧ py = y then some ⟨g.symbol, st⟩ else none
    else none

/-- Mirror of drawTitle via stringnWrite?. -/
def titleWrite? (blk : Block) (px py : Nat) : Option Cell :=
  if 2 < blk.area.width then
    match blk.title with
    | some t =>
      stringnWrite? (blk.area.left + blk.lx) blk.area.top t
        (blk.area.width - blk.lx - blk.rx) blk.title_style px py
    | none => none
  else none

/-- Text alignment of layout.rs (not under src/), modelled from the spec. -/
inductive Alignment where
  | Left
  | Center
  | Right
  deriving DecidableEq, Repr

/-- Translation of get_line_offset (paragraph.rs lines 16 to 22); the
saturating u16 subtractions become truncated subtraction on naturals. -/
def get_line_offset (line_width text_area_width : Nat) (alignment : Alignment) : Nat :=
  match alignment with
  | Alignment.Center => text_area_width / 2 - line_width / 2
  | Alignment.Right => text_area_width - line_width
  | Alignment.Left => 0

/-- The Styled grapheme unit of widgets/reflow.rs: one grapheme cluster with
its display width and style. -/
structure Styled where
  symbol : String
  width : Nat
  style : Style
  deriving DecidableEq, Repr

/-- A composed line as returned by LineComposer::next_line: the cells of the
line and the display width the composer reports for it. -/
structure ComposedLine where
  cells : List Styled
  width : Nat
  deriving DecidableEq, Repr

/-- The text spans accepted by Paragraph (widgets/mod.rs Text, not under
src/): raw spans take the ambient widget style, styled spans carry their
own; span content is pre-segmented into graphemes. -/
inductive Text where
  | Raw : List Grapheme → Text
  | Styled : List Grapheme → Style → Text

/-- Translation of the flat_map in Paragraph::draw (paragraph.rs lines 166
to 175) that tags every grapheme with its span style. -/
def styledGraphemes (style : Style) : List Text → List Styled
  | [] => []
  | Text.Raw gs :: rest =>
    gs.map (fun g => ⟨g.symbol, g.width, style⟩) ++ styledGraphemes style rest
  | Text.Styled gs s :: rest =>
    gs.map (fun g => ⟨g.symbol, g.width, s⟩) ++ styledGraphemes style rest

/-- Sum of the display widths of a run of styled units. -/
def widthOf (us : List Styled) : Nat :=
  (us.map Styled.width).sum

/-- Modelled from the spec: a hard line-break unit. -/
def isBreak (u : Styled) : Bool := u.symbol = "\n"

/-- Modelled from the spec: a space unit, the word separator of word-wrap
mode. -/
def isSpace (u : Styled) : Bool := u.symbol = " "

/-- Modelled from the spec: split the unit stream into logical lines at hard
line-break units, the break units excluded. -/
def splitLogical : List Styled → List (List Styled)
  | [] => [[]]
  | u :: rest =>
    let r := splitLogical rest
    if isBreak u then [] :: r
    else
      match r with
      | [] => [[u]]
      | l :: ls => (u :: l) :: ls

/-- Modelled from the spec: greedy prefix of a logical line that fits the
width budget, used by truncation mode. -/
def takeFit (width : Nat) : List Styled → Nat → List Styled
  | [], _ => []
  | u :: rest, used =>
    if used + u.width ≤ width then u :: takeFit width rest (used + u.width) else []

/-- Modelled from the spec: truncation mode cuts each logical line at the
width budget and discards the remainder of the line. -/
def truncateLine (width : Nat) (us : List Styled) : ComposedLine :=
  let cells := takeFit width us 0
  ⟨cells, widthOf cells⟩

/-- Modelled from the spec: split a logical line into words, a word being a
maximal run of non-space units together with its trailing spaces. -/
def splitWordsAux : List Styled → List Styled → Bool → List (List Styled)
  | [], acc, _ => if acc.isEmpty then [] else [acc.reverse]
  | u :: rest, acc, sawSpace =>
    if isSpace u then splitWordsAux rest (u :: acc) true
    else if sawSpace then acc.reverse :: splitWordsAux rest [u] false
    else splitWordsAux rest (u :: acc) false

/-- Modelled from the spec: hard-break an overlong word at the column
budget, each piece taking at least one unit. -/
def hardBreakAux (width : Nat) : List Styled → List Styled → Nat → List (List Styled)
  | [], acc, _ => if acc.isEmpty then [] else [acc.reverse]
  | u :: rest, acc, used =>
    if acc.isEmpty || used + u.width ≤ width then
      hardBreakAux width rest (u :: acc) (used + u.width)
    else acc.reverse :: hardBreakAux width rest [u] u.width

/-- Modelled from the spec: drop the trailing spaces of a run of units. -/
def trimEnd (cells : List Styled) : List Styled :=
  (cells.reverse.dropWhile isSpace).reverse

/-- Modelled from the spec: the width of a composed line with trailing
spaces trimmed from the accounting. -/
def trimmedWidth (cells : List Styled) : Nat :=
  widthOf (cells.reverse.dropWhile isSpace)

/-- Modelled from the spec: greedily pack word pieces into lines, appending
whole words while the running width, trailing space trimmed from the
accounting, stays within budget; an overflowing word starts the next
line. -/
def packAux (width : Nat) : List (List Styled) → List Styled → List ComposedLine
  | [], acc => if acc.isEmpty then [] else [⟨trimEnd acc, trimmedWidth acc⟩]
  | p :: ps, acc =>
    if acc.isEmpty || trimmedWidth (acc ++ p) ≤ width then packAux width ps (acc ++ p)
    else ⟨trimEnd acc, trimmedWidth acc⟩ :: packAux width ps p

/-- Modelled from the spec: word-wrap one logical line; an empty logical
line still emits one empty composed line. -/
def wrapLogical (width : Nat) (us : List Styled) : List ComposedLine :=
  let words := splitWordsAux us [] false
  let pieces :=
    words.flatMap (fun w =>
      if trimmedWidth w ≤ width then [w] else hardBreakAux width w [] 0)
  if pieces.isEmpty then [⟨[], 0⟩] else packAux width pieces []

/-- Modelled from the spec: the Line Composer of widgets/reflow.rs (not
under src/) as the list of composed lines it produces, in word-wrap or
truncation mode; an empty unit stream composes no lines. -/
def composeLines (wrapping : Bool) (width : Nat) (units : List Styled) : List ComposedLine :=
  if units.isEmpty then []
  else if wrapping then (splitLogical units).flatMap (wrapLogical width)
  else (splitLogical units).map (truncateLine width)

/-- Inner loop of the paint phase of Paragraph::draw: write the cells of one
composed line left to right, advancing by each display width. -/
def paintSymbols (buf : Buffer) (y : Nat) : List Styled → Nat → Buffer
  | [], _ => buf
  | s :: rest, x => paintSymbols (buf.set x y s.symbol s.style) y rest (x + s.width)

/-- Paint one composed line at the given row of the text area, using the
alignment offset (paragraph.rs lines 185 to 191). -/
def paintLine (buf : Buffer) (area : Rect) (align : Alignment) (l : ComposedLine)
    (row : Nat) : Buffer :=
  paintSymbols buf (area.top + row) l.cells
    (area.left + get_line_offset l.width area.width align)

/-- Translation of the while-loop of Paragraph::draw (paragraph.rs lines 182
to 197): y counts composed lines, lines before the scroll offset are
skipped, and the loop breaks once y reaches height plus scroll. -/
def drawLines (area : Rect) (scroll : Nat) (align : Alignment) :
    Buffer → List ComposedLine → Nat → Buffer
  | buf, [], _ => buf
  | buf, l :: ls, y =>
    let buf1 := if scroll ≤ y then paintLine buf area align l (y - scroll) else buf
    if area.height + scroll ≤ y + 1 then buf1
    else drawLines area scroll align buf1 ls (y + 1)

/-- Paint a window of composed lines, the i-th at row i: this follows the
wording of the spec, which says exactly the composed lines with index in
[scroll, scroll + height) are painted, line s + j on row j. -/
def paintWindow (area : Rect) (align : Alignment) :
    Buffer → List ComposedLine → Nat → Buffer
  | buf, [], _ => buf
  | buf, l :: ls, row => paintWindow area align (paintLine buf area align l row) ls (row + 1)

/-- The Paragraph widget of src/widgets/paragraph.rs, its lazy text iterator
represented as the list of spans it yields. -/
structure Paragraph where
  block : Option Block
  area : Rect
  style : Style
  wrapping : Bool
  text : List Text
  raw : Bool
  scroll : Nat
  alignment : Alignment
  events : List EventAttribute

/-- Translation of Paragraph::triggers_event (paragraph.rs lines 121 to
139). -/
def Paragraph.triggers_event (p : Paragraph) (e : Event) : Option Nat :=
  match e with
  | Event.mouseEvent kind x y =>
    if p.area.hit x y then findMatch kind p.events else none
  | Event.keyEvent => none

/-- Translation of Paragraph::get_area (paragraph.rs lines 147 to 152). -/
def Paragraph.get_area (p : Paragraph) : Rect :=
  match p.block with
  | some b => b.inner
  | none => p.area

/-- Block-drawing step of Paragraph::draw (paragraph.rs lines 155 to 157). -/
def Paragraph.blockStep (p : Paragraph) (buf : Buffer) : Buffer :=
  match p.block with
  | some b => b.draw buf
  | none => buf

/-- Translation of Paragraph::draw (paragraph.rs lines 153 to 198): compute
the text area, draw the attached block, return early when the text area has
height below one, else fill the background and paint the composed lines. -/
def Paragraph.draw (p : Paragraph) (buf : Buffer) : Buffer :=
  let textArea := p.get_area
  let buf1 := p.blockStep buf
  if textArea.height < 1 then buf1
  else
    let buf2 := fillBackground buf1 textArea p.style.bg
    let lines := composeLines p.wrapping textArea.width (styledGraphemes p.style p.text)
    drawLines textArea p.scroll p.alignment buf2 lines 0

/-- The same block with its title removed, used to state that the title
step is the only part of Block::draw that depends on the title. -/
def eraseTitle (blk : Block) : Block :=
  ⟨none, blk.title_style, blk.borders, blk.border_style, blk.style, blk.area, blk.events⟩

/-- The Block::draw pipeline with the corner step removed: what the spec
calls leaving whatever the edge-drawing step produced. -/
def drawNoCorners (blk : Block) (buf : Buffer) : Buffer :=
  drawTitle blk (drawSides blk (drawBackground blk buf))

/-- Concrete buffer used by the witness theorems: every cell a blank with
the default style. -/
def blankBuffer : Buffer :=
  ⟨fun _ _ => ⟨" ", Style.mkDefault⟩⟩

/-- Concrete border style used by witness fixtures. -/
def wBorderStyle : Style := ⟨some 1, none, 0⟩

/-- Concrete title style used by witness fixtures. -/
def wTitleStyle : Style := ⟨some 2, none, 0⟩

/-- Witness fixture: a block with all four borders, a one-column title and
one registered click listener on a five-by-three area. -/
def wBlockAll : Block :=
  ⟨some [⟨"X", 1⟩], wTitleStyle, ⟨true, true, true, true⟩, wBorderStyle,
    ⟨none, some 5, 0⟩, ⟨1, 1, 5, 3⟩, [⟨"click", 7⟩]⟩

/-- Witness fixture: a block whose area is one column wide. -/
def wBlockSmall : Block :=
  ⟨some [⟨"X", 1⟩], wTitleStyle, ⟨true, true, true, true⟩, wBorderStyle,
    ⟨none, some 5, 0⟩, ⟨0, 0, 1, 5⟩, []⟩

/-- Witness fixture: a paragraph with no attached block. -/
def wParPlain : Paragraph :=
  ⟨none, ⟨0, 0, 5, 2⟩, ⟨none, some 3, 0⟩, false,
    [Text.Raw [⟨"h", 1⟩, ⟨"i", 1⟩]], false, 0, Alignment.Left, [⟨"click", 9⟩]⟩

/-- Witness fixture: a paragraph wrapping wBlockAll, whose own area matches
the outer area of the block. -/
def wParBlocked : Paragraph :=
  ⟨some wBlockAll, ⟨1, 1, 5, 3⟩, ⟨none, some 3, 0⟩, false,
    [Text.Raw [⟨"h", 1⟩, ⟨"i", 1⟩]], false, 0, Alignment.Left, [⟨"click", 9⟩]⟩

/-- Witness fixture: a block whose inner rectangle has height zero. -/
def wFlatBlock : Block :=
  ⟨none, wTitleStyle, ⟨true, false, true, true⟩, wBorderStyle,
    ⟨none, some 5, 0⟩, ⟨0, 0, 6, 2⟩, []⟩

/-- Witness fixture: a paragraph whose block computes an inner rectangle of
height zero. -/
def wParFlat : Paragraph :=
  ⟨some wFlatBlock, ⟨0, 0, 6, 2⟩, ⟨none, some 3, 0⟩, false,
    [Text.Raw [⟨"h", 1⟩, ⟨"i", 1⟩]], false, 0, Alignment.Left, []⟩

@[simp]
theorem Buffer.get_set (b : Buffer) (x y : Nat) (s : String) (st : Style) (px py : Nat) :
    (b.set x y s st).get px py = if px = x ∧ py = y then ⟨s, st⟩ else b.get px py := rfl

theorem hline_get (st : Style) (px py : Nat) :
    ∀ (n : Nat) (buf : Buffer) (x y : Nat),
      (hline buf x y n st).get px py =
        if py = y ∧ x ≤ px ∧ px < x + n then ⟨line.HORIZONTAL, st⟩ else buf.get px py := by
  intro n
  induction n with
  | zero =>
    intro buf x y
    rw [hline, if_neg]
    omega
  | succ m ih =>
    intro buf x y
    rw [hline, ih]
    by_cases hc2 : py = y ∧ x + 1 ≤ px ∧ px < x + 1 + m
    · rw [if_pos hc2, if_pos (show py = y ∧ x ≤ px ∧ px < x + (m + 1) by omega)]
    · rw [if_neg hc2, Buffer.get_set]
      by_cases hxy : px = x ∧ py = y
      · rw [if_pos hxy, if_pos (show py = y ∧ x ≤ px ∧ px < x + (m + 1) by omega)]
      · rw [if_neg hxy, if_neg (show ¬(py = y ∧ x ≤ px ∧ px < x + (m + 1)) by omega)]

theorem vline_get (st : Style) (px py : Nat) :
    ∀ (n : Nat) (buf : Buffer) (x y : Nat),
      (vline buf x y n st).get px py =
        if px = x ∧ y ≤ py ∧ py < y + n then ⟨line.VERTICAL, st⟩ else buf.get px py := by
  intro n
  induction n with
  | zero =>
    intro buf x y
    rw [vline, if_neg]
    omega
  | succ m ih =>
    intro buf x y
    rw [vline, ih]
    by_cases hc2 : px = x ∧ y + 1 ≤ py ∧ py < y + 1 + m
    · rw [if_pos hc2, if_pos (show px = x ∧ y ≤ py ∧ py < y + (m + 1) by omega)]
    · rw [if_neg hc2, Buffer.get_set]
      by_cases hxy : px = x ∧ py = y
      · rw [if_pos hxy, if_pos (show px = x ∧ y ≤ py ∧ py < y + (m + 1) by omega)]
      · rw [if_neg hxy, if_neg (show ¬(px = x ∧ y ≤ py ∧ py < y + (m + 1)) by omega)]

theorem fillBackground_get_outside (b : Buffer) (r : Rect) (c : Option Nat) (px py : Nat)
    (h : r.hit px py = false) : (fillBackground b r c).get px py = b.get px py := by
  cases c with
  | none => rfl
  | some col => simp [fillBackground, h]

theorem fillBackground_symbol (b : Buffer) (r : Rect) (c : Option Nat) (px py : Nat) :
    ((fillBackground b r c).get px py).symbol = (b.get px py).symbol := by
  cases c with
  | none => rfl
  | some col =>
    simp only [fillBackground]
    by_cases h : r.hit px py <;> simp [h]

theorem set_stringn_get (st : Style) (px py : Nat) :
    ∀ (text : List Grapheme) (b : Buffer) (x y : Nat) (budget : Nat),
      (set_stringn b x y text budget st).get px py =
        ((stringnWrite? x y text budget st px py).getD (b.get px py)) := by
  intro text
  induction text with
  | nil => intro b x y budget; rfl
  | cons g rest ih =>
    intro b x y budget
    rw [set_stringn, stringnWrite?]
    by_cases h0 : budget = 0
    · simp [h0]
    · rw [if_neg h0, if_neg h0]
      by_cases hw : g.width ≤ budget
      · rw [if_pos hw, if_pos hw, ih]
        cases hrec : stringnWrite? (x + g.width) y rest (budget - g.width) st px py with
        | some c => simp
        | none =>
          simp only [Option.getD_none, Buffer.get_set]
          by_cases hxy : px = x ∧ py = y
          · simp [hxy]
          · simp [hxy]
      · rw [if_neg hw, if_neg hw]
        rfl

theorem stringnWrite?_bounds (st : Style) (px py : Nat) :
    ∀ (text : List Grapheme) (x y : Nat) (budget : Nat) (c : Cell),
      stringnWrite? x y text budget st px py = some c →
      py = y ∧ x ≤ px ∧ px < x + budget ∧ c.style = st := by
  intro text
  induction text with
  | nil => intro x y budget c h; exact absurd h (by simp [stringnWrite?])
  | cons g rest ih =>
    intro x y budget c h
    rw [stringnWrite?] at h
    by_cases h0 : budget = 0
    · rw [if_pos h0] at h; exact absurd h (by simp)
    · rw [if_neg h0] at h
      by_cases hw : g.width ≤ budget
      · rw [if_pos hw] at h
        cases hrec : stringnWrite? (x + g.width) y rest (budget - g.width) st px py with
        | some c2 =>
          rw [hrec] at h
          obtain ⟨h1, h2, h3, h4⟩ := ih (x + g.width) y (budget - g.width) c2 hrec
          cases h
          exact ⟨h1, by omega, by omega, h4⟩
        | none =>
          rw [hrec] at h
          by_cases hxy : px = x ∧ py = y
          · rw [if_pos hxy] at h
            cases h
            exact ⟨hxy.2, by omega, by omega, rfl⟩
          · rw [if_neg hxy] at h; exact absurd h (by simp)
      · rw [if_neg hw] at h; exact absurd h (by simp)

theorem drawTitle_get (blk : Block) (b : Buffer) (px py : Nat) :
    (drawTitle blk b).get px py = ((titleWrite? blk px py).getD (b.get px py)) := by
  rw [drawTitle, titleWrite?]
  by_cases hw : 2 < blk.area.width
  · rw [if_pos hw, if_pos hw]
    cases blk.title with
    | none => rfl
    | some t => exact set_stringn_get blk.title_style px py t b _ _ _
  · rw [if_neg hw, if_neg hw]
    rfl

theorem titleWrite?_bounds (blk : Block) (px py : Nat) (c : Cell)
    (h : titleWrite? blk px py = some c) :
    py = blk.area.top ∧ blk.area.left + blk.lx ≤ px ∧
      px < blk.area.left + blk.lx + (blk.area.width - blk.lx - blk.rx) ∧
      c.style = blk.title_style := by
  rw [titleWrite?] at h
  by_cases hw : 2 < blk.area.width
  · rw [if_pos hw] at h
    cases ht : blk.title with
    | none => rw [ht] at h; exact absurd h (by simp)
    | some t =>
      rw [ht] at h
      obtain ⟨h1, h2, h3, h4⟩ := stringnWrite?_bounds blk.title_style px py t _ _ _ c h
      exact ⟨h1, h2, h3, h4⟩
  · rw [if_neg hw] at h
    exact absurd h (by simp)

theorem drawTitle_get_untouched (blk : Block) (b : Buffer) (px py : Nat)
    (h : titleWrite? blk px py = none) :
    (drawTitle blk b).get px py = b.get px py := by
  rw [drawTitle_get, h]
  rfl

@[simp]
theorem Borders.intersects_LEFT (bs : Borders) : bs.intersects Borders.LEFT = bs.left := by
  simp [Borders.intersects, Borders.LEFT]

@[simp]
theorem Borders.intersects_RIGHT (bs : Borders) : bs.intersects Borders.RIGHT = bs.right := by
  simp [Borders.intersects, Borders.RIGHT]

@[simp]
theorem Borders.intersects_TOP (bs : Borders) : bs.intersects Borders.TOP = bs.top := by
  simp [Borders.intersects, Borders.TOP]

@[simp]
theorem Borders.intersects_BOTTOM (bs : Borders) : bs.intersects Borders.BOTTOM = bs.bottom := by
  simp [Borders.intersects, Borders.BOTTOM]

@[simp]
theorem Borders.contains_LT (bs : Borders) :
    bs.contains (Borders.or Borders.LEFT Borders.TOP) = (bs.left && bs.top) := by
  simp [Borders.contains, Borders.or, Borders.LEFT, Borders.TOP]

@[simp]
theorem Borders.contains_RT (bs : Borders) :
    bs.contains (Borders.or Borders.RIGHT Borders.TOP) = (bs.right && bs.top) := by
  simp [Borders.contains, Borders.or, Borders.RIGHT, Borders.TOP]

@[simp]
theorem Borders.contains_LB (bs : Borders) :
    bs.contains (Borders.or Borders.LEFT Borders.BOTTOM) = (bs.left && bs.bottom) := by
  simp [Borders.contains, Borders.or, Borders.LEFT, Borders.BOTTOM]

@[simp]
theorem Borders.contains_RB (bs : Borders) :
    bs.contains (Borders.or Borders.RIGHT Borders.BOTTOM) = (bs.right && bs.bottom) := by
  simp [Borders.contains, Borders.or, Borders.RIGHT, Borders.BOTTOM]

theorem drawBackground_get_outside (blk : Block) (b : Buffer) (px py : Nat)
    (h : blk.area.hit px py = false) :
    (drawBackground blk b).get px py = b.get px py :=
  fillBackground_get_outside b blk.area blk.style.bg px py h

theorem hit_false_iff (r : Rect) (px py : Nat) :
    r.hit px py = false ↔ ¬(r.x ≤ px ∧ px < r.x + r.width ∧ r.y ≤ py ∧ py < r.y + r.height) := by
  simp [Rect.hit, Rect.left, Rect.right, Rect.top, Rect.bottom]

theorem drawSides_get_outside (blk : Block) (b : Buffer) (px py : Nat)
    (h : blk.area.hit px py = false) (hw : 2 ≤ blk.area.width) (hh : 2 ≤ blk.area.height) :
    (drawSides blk b).get px py = b.get px py := by
  rw [hit_false_iff] at h
  rw [drawSides]
  simp only [Rect.left, Rect.right, Rect.top, Rect.bottom]
  have hb : ∀ b2 : Buffer,
      (if blk.borders.intersects Borders.BOTTOM then
        hline b2 blk.area.x (blk.area.y + blk.area.height - 1) blk.area.width blk.border_style
      else b2).get px py = b2.get px py := by
    intro b2
    by_cases hc : blk.borders.intersects Borders.BOTTOM
    · rw [if_pos hc, hline_get, if_neg]
      omega
    · rw [if_neg hc]
  have hr : ∀ b2 : Buffer,
      (if blk.borders.intersects Borders.RIGHT then
        vline b2 (blk.area.x + blk.area.width - 1) blk.area.y blk.area.height blk.border_style
      else b2).get px py = b2.get px py := by
    intro b2
    by_cases hc : blk.borders.intersects Borders.RIGHT
    · rw [if_pos hc, vline_get, if_neg]
      omega
    · rw [if_neg hc]
  have ht : ∀ b2 : Buffer,
      (if blk.borders.intersects Borders.TOP then
        hline b2 blk.area.x blk.area.y blk.area.width blk.border_style
      else b2).get px py = b2.get px py := by
    intro b2
    by_cases hc : blk.borders.intersects Borders.TOP
    · rw [if_pos hc, hline_get, if_neg]
      omega
    · rw [if_neg hc]
  have hl : ∀ b2 : Buffer,
      (if blk.borders.intersects Borders.LEFT then
        vline b2 blk.area.x blk.area.y blk.area.height blk.border_style
      else b2).get px py = b2.get px py := by
    intro b2
    by_cases hc : blk.borders.intersects Borders.LEFT
    · rw [if_pos hc, vline_get, if_neg]
      omega
    · rw [if_neg hc]
  rw [hb, hr, ht, hl]

theorem drawCorners_get_outside (blk : Block) (b : Buffer) (px py : Nat)
    (h : blk.area.hit px py = false) (hw : 2 ≤ blk.area.width) (hh : 2 ≤ blk.area.height) :
    (drawCorners blk b).get px py = b.get px py := by
  rw [hit_false_iff] at h
  rw [drawCorners]
  simp only [Rect.left, Rect.right, Rect.top, Rect.bottom]
  have step : ∀ (b2 : Buffer) (c : Bool) (cx cy : Nat) (s : String),
      cx < blk.area.x + blk.area.width → blk.area.x ≤ cx →
      cy < blk.area.y + blk.area.height → blk.area.y ≤ cy →
      (if c = true then b2.set cx cy s blk.border_style else b2).get px py = b2.get px py := by
    intro b2 c cx cy s h1 h2 h3 h4
    by_cases hc : c = true
    · rw [if_pos hc, Buffer.get_set, if_neg]
      omega
    · rw [if_neg hc]
  rw [step _ _ _ _ _ (by omega) (by omega) (by omega) (by omega),
    step _ _ _ _ _ (by omega) (by omega) (by omega) (by omega),
    step _ _ _ _ _ (by omega) (by omega) (by omega) (by omega),
    step _ _ _ _ _ (by omega) (by omega) (by omega) (by omega)]

theorem drawTitle_get_outside (blk : Block) (b : Buffer) (px py : Nat)
    (h : blk.area.hit px py = false) (hh : 2 ≤ blk.area.height) :
    (drawTitle blk b).get px py = b.get px py := by
  rw [drawTitle_get]
  cases hw : titleWrite? blk px py with
  | none => rfl
  | some c =>
    obtain ⟨h1, h2, h3, _⟩ := titleWrite?_bounds blk px py c hw
    rw [hit_false_iff] at h
    exfalso
    have hlx : blk.lx ≤ 1 := by
      rw [Block.lx]; by_cases hc : blk.borders.intersects Borders.LEFT <;> simp [hc]
    have hrx : blk.rx ≤ 1 := by
      rw [Block.rx]; by_cases hc : blk.borders.intersects Borders.RIGHT <;> simp [hc]
    rw [Rect.top] at h1
    rw [Rect.left] at h2 h3
    omega

/-- C4: for every Block whose area has width below 2 or height below 2,
draw returns before doing any work, so the whole buffer, background
included, is left unchanged. -/
theorem draw_noop_when_undersized (blk : Block) (buf : Buffer)
    (h : blk.area.width < 2 ∨ blk.area.height < 2) :
    Block.draw blk buf = buf := by
  rw [Block.draw, if_pos h]

/-- Witness for C4 at a concrete one-column block. -/
theorem draw_noop_when_undersized_witness :
    (wBlockSmall.area.width < 2 ∨ wBlockSmall.area.height < 2) ∧
      Block.draw wBlockSmall blankBuffer = blankBuffer :=
  ⟨Or.inl (by decide), draw_noop_when_undersized wBlockSmall blankBuffer (Or.inl (by decide))⟩

/-- C8: Block::draw writes only cells inside the area rectangle returned by
get_area; every cell outside it, title overflow positions included, keeps
its previous contents. -/
theorem draw_only_paints_area (blk : Block) (buf : Buffer) (px py : Nat)
    (h : blk.area.hit px py = false) :
    (Block.draw blk buf).get px py = buf.get px py := by
  rw [Block.draw]
  by_cases hsz : blk.area.width < 2 ∨ blk.area.height < 2
  · rw [if_pos hsz]
  · rw [if_neg hsz]
    push_neg at hsz
    rw [drawTitle_get_outside blk _ px py h hsz.2,
      drawCorners_get_outside blk _ px py h hsz.1 hsz.2,
      drawSides_get_outside blk _ px py h hsz.1 hsz.2,
      drawBackground_get_outside blk buf px py h]

/-- Witness for C8: a cell just right of the concrete block is untouched. -/
theorem draw_only_paints_area_witness :
    wBlockAll.area.hit 6 2 = false ∧
      (Block.draw wBlockAll blankBuffer).get 6 2 = blankBuffer.get 6 2 :=
  ⟨by decide, draw_only_paints_area wBlockAll blankBuffer 6 2 (by decide)⟩

/-- C1: Block::inner returns the zero rectangle on undersized areas, and
otherwise shrinks the area by one on each side whose border is enabled, the
top also shrinking when a title is set; x shifts only for LEFT and y only
for TOP or title. -/
theorem inner_rect_rule (blk : Block) :
    (blk.area.width < 2 ∨ blk.area.height < 2 → blk.inner = ⟨0, 0, 0, 0⟩) ∧
    (2 ≤ blk.area.width → 2 ≤ blk.area.height →
      blk.inner =
        ⟨blk.area.x + (if blk.borders.left = true then 1 else 0),
          blk.area.y + (if (blk.borders.top || blk.title.isSome) = true then 1 else 0),
          blk.area.width - (if blk.borders.left = true then 1 else 0) -
            (if blk.borders.right = true then 1 else 0),
          blk.area.height - (if (blk.borders.top || blk.title.isSome) = true then 1 else 0) -
            (if blk.borders.bottom = true then 1 else 0)⟩) := by
  constructor
  · intro h
    rw [Block.inner, if_pos h]
  · intro hw hh
    rw [Block.inner, if_neg (by omega)]
    simp only [Borders.intersects_LEFT, Borders.intersects_TOP, Borders.intersects_RIGHT,
      Borders.intersects_BOTTOM]
    cases hL : blk.borders.left <;>
      cases hT : blk.borders.top || blk.title.isSome <;>
        cases hR : blk.borders.right <;>
          cases hB : blk.borders.bottom <;>
            simp [hL, hT, hR, hB, Rect.mk.injEq]

/-- Witness for C1 at the concrete all-borders block. -/
theorem inner_rect_rule_witness :
    (2 ≤ wBlockAll.area.width ∧ 2 ≤ wBlockAll.area.height ∧
        wBlockAll.inner = ⟨2, 2, 3, 1⟩) ∧
      (wBlockSmall.area.width < 2 ∧ wBlockSmall.inner = ⟨0, 0, 0, 0⟩) :=
  ⟨⟨by decide, by decide, by
      have h := (inner_rect_rule wBlockAll).2 (by decide) (by decide)
      rw [h]; decide⟩,
    ⟨by decide, (inner_rect_rule wBlockSmall).1 (Or.inl (by decide))⟩⟩

/-- C6: the alignment offset is 0 on the left, width minus line width
saturating at zero on the right, and the difference of the half widths
saturating at zero in the centre, which for lines no wider than the target
is within one column of half the slack. -/
theorem line_offset_rule (w t : Nat) :
    get_line_offset w t Alignment.Left = 0 ∧
    get_line_offset w t Alignment.Right = t - w ∧
    get_line_offset w t Alignment.Center = t / 2 - w / 2 ∧
    (w ≤ t →
      get_line_offset w t Alignment.Center ≤ (t - w) / 2 + 1 ∧
        (t - w) / 2 ≤ get_line_offset w t Alignment.Center + 1) := by
  refine ⟨rfl, rfl, rfl, fun h => ?_⟩
  rw [get_line_offset]
  omega

/-- Witness for C6 at a concrete width pair. -/
theorem line_offset_rule_witness :
    4 ≤ 7 ∧ get_line_offset 4 7 Alignment.Center ≤ (7 - 4) / 2 + 1 :=
  ⟨by decide, ((line_offset_rule 4 7).2.2.2 (by decide)).1⟩

theorem findMatch_eq_find (kind : String) :
    ∀ ls : List EventAttribute,
      findMatch kind ls =
        Option.map EventAttribute.callback (List.find? (fun l => l.name == kind) ls) := by
  intro ls
  induction ls with
  | nil => rfl
  | cons l ls ih =>
    rw [findMatch]
    by_cases h : kind = l.name
    · rw [if_pos h, List.find?_cons_of_pos _ (by simp [h])]
      rfl
    · rw [if_neg h, List.find?_cons_of_neg _ (by simp [Ne.symm h]), ih]

/-- C7: for both widgets, triggers_event returns the callback of the first
registered listener whose name equals the kind of a mouse event whose
coordinate the area contains, and none in every other case: outside the
area, with no matching listener, or on a non-mouse event. -/
theorem triggers_event_rule (blk : Block) (p : Paragraph) (kind : String) (x y : Nat) :
    blk.triggers_event (Event.mouseEvent kind x y) =
      (if blk.area.hit x y then
        Option.map EventAttribute.callback (List.find? (fun l => l.name == kind) blk.events)
      else none) ∧
    p.triggers_event (Event.mouseEvent kind x y) =
      (if p.area.hit x y then
        Option.map EventAttribute.callback (List.find? (fun l => l.name == kind) p.events)
      else none) ∧
    blk.triggers_event Event.keyEvent = none ∧
    p.triggers_event Event.keyEvent = none := by
  refine ⟨?_, ?_, rfl, rfl⟩
  · rw [Block.triggers_event, findMatch_eq_find]
  · rw [Paragraph.triggers_event, findMatch_eq_find]

/-- C9: with a block attached, get_area is the inner rectangle of the
block, the block is drawn first, and when that inner rectangle has height
below one the paragraph draws nothing further: no background fill and no
text. -/
theorem paragraph_block_rule (p : Paragraph) (b : Block) (buf : Buffer)
    (hb : p.block = some b) :
    p.get_area = b.inner ∧
      (b.inner.height < 1 → p.draw buf = b.draw buf) := by
  constructor
  · rw [Paragraph.get_area, hb]
  · intro hh
    rw [Paragraph.draw]
    simp only [Paragraph.get_area, Paragraph.blockStep, hb]
    rw [if_pos hh]

/-- Witness for C9 at a concrete paragraph whose block has a height-zero
inner rectangle. -/
theorem paragraph_block_rule_witness :
    wParFlat.block = some wFlatBlock ∧ wFlatBlock.inner.height < 1 ∧
      wParFlat.draw blankBuffer = wFlatBlock.draw blankBuffer :=
  ⟨rfl, by decide,
    (paragraph_block_rule wParFlat wFlatBlock blankBuffer rfl).2 (by decide)⟩

/-- C10: Paragraph::triggers_event tests the coordinate against the
configured area field, not against get_area, so a mouse event on the border
region of an attached block still reaches the handler: the concrete
paragraph below accepts a click at its top-left corner, which lies outside
its inner rectangle. -/
theorem paragraph_hit_uses_outer_area :
    (∀ (p : Paragraph) (kind : String) (x y : Nat),
      p.area.hit x y = false → p.triggers_event (Event.mouseEvent kind x y) = none) ∧
    (wParBlocked.area.hit 1 1 = true ∧ wParBlocked.get_area.hit 1 1 = false ∧
      wParBlocked.triggers_event (Event.mouseEvent "click" 1 1) = some 9) := by
  constructor
  · intro p kind x y h
    rw [Paragraph.triggers_event, h]
    rfl
  · exact ⟨by decide, by decide, by decide⟩

/-- Witness for C10: the universal part applied at a concrete paragraph and
coordinate outside its area. -/
theorem paragraph_hit_uses_outer_area_witness :
    wParPlain.area.hit 9 0 = false ∧
      wParPlain.triggers_event (Event.mouseEvent "click" 9 0) = none :=
  ⟨by decide, paragraph_hit_uses_outer_area.1 wParPlain "click" 9 0 (by decide)⟩

theorem drawLines_skip (area : Rect) (scroll : Nat) (align : Alignment) :
    ∀ (ls : List ComposedLine) (buf : Buffer) (y : Nat),
      y ≤ scroll → 1 ≤ area.height →
      drawLines area scroll align buf ls y =
        drawLines area scroll align buf (ls.drop (scroll - y)) scroll := by
  intro ls
  induction ls with
  | nil => intro buf y _ _; cases (scroll - y) <;> rfl
  | cons l ls ih =>
    intro buf y hy hh
    by_cases heq : y = scroll
    · subst heq
      rw [Nat.sub_self, List.drop_zero]
    · rw [drawLines, if_neg (by omega), if_neg (by omega),
        ih buf (y + 1) (by omega) hh,
        show scroll - y = (scroll - (y + 1)) + 1 by omega, List.drop_succ_cons]

theorem drawLines_paint (area : Rect) (scroll : Nat) (align : Alignment) :
    ∀ (ls : List ComposedLine) (buf : Buffer) (j : Nat),
      j < area.height →
      drawLines area scroll align buf ls (scroll + j) =
        paintWindow area align buf (ls.take (area.height - j)) j := by
  intro ls
  induction ls with
  | nil => intro buf j _; cases (area.height - j) <;> rfl
  | cons l ls ih =>
    intro buf j hj
    rw [drawLines, if_pos (show scroll ≤ scroll + j by omega),
      show scroll + j - scroll = j by omega]
    by_cases hbr : area.height + scroll ≤ scroll + j + 1
    · rw [if_pos hbr, show area.height - j = 0 + 1 by omega, List.take_succ_cons,
        List.take_zero]
      rfl
    · rw [if_neg hbr, show scroll + j + 1 = scroll + (j + 1) by omega,
        ih _ (j + 1) (by omega),
        show area.height - j = (area.height - (j + 1)) + 1 by omega,
        List.take_succ_cons, paintWindow]

/-- C5: Paragraph::draw paints exactly the composed lines with index in the
window from scroll to scroll plus height, the line of index scroll plus j
on row j; lines below the scroll offset and beyond the window are never
painted, so at most height lines are painted, and a text area of height
zero paints nothing at all. -/
theorem scroll_window_rule (p : Paragraph) (buf : Buffer) :
    (p.get_area.height < 1 → p.draw buf = p.blockStep buf) ∧
    (1 ≤ p.get_area.height →
      p.draw buf =
        paintWindow p.get_area p.alignment
          (fillBackground (p.blockStep buf) p.get_area p.style.bg)
          (((composeLines p.wrapping p.get_area.width
                (styledGraphemes p.style p.text)).drop p.scroll).take p.get_area.height)
          0) := by
  constructor
  · intro h
    rw [Paragraph.draw, if_pos h]
  · intro h
    rw [Paragraph.draw]
    rw [if_neg (by omega)]
    rw [drawLines_skip p.get_area p.scroll p.alignment _ _ 0 (by omega) h, Nat.sub_zero]
    have h2 := drawLines_paint p.get_area p.scroll p.alignment
      ((composeLines p.wrapping p.get_area.width (styledGraphemes p.style p.text)).drop
        p.scroll)
      (fillBackground (p.blockStep buf) p.get_area p.style.bg) 0 (by omega)
    rw [Nat.add_zero, Nat.sub_zero] at h2
    exact h2

/-- Witness for C5 at a concrete paragraph of height two. -/
theorem scroll_window_rule_witness :
    1 ≤ wParPlain.get_area.height ∧
      wParPlain.draw blankBuffer =
        paintWindow wParPlain.get_area wParPlain.alignment
          (fillBackground (wParPlain.blockStep blankBuffer) wParPlain.get_area
            wParPlain.style.bg)
          (((composeLines wParPlain.wrapping wParPlain.get_area.width
                (styledGraphemes wParPlain.style wParPlain.text)).drop
              wParPlain.scroll).take wParPlain.get_area.height)
          0 :=
  ⟨by decide, (scroll_window_rule wParPlain blankBuffer).2 (by decide)⟩

theorem Buffer.get_set_ne (b : Buffer) (x y : Nat) (s : String) (st : Style) (px py : Nat)
    (h : ¬(px = x ∧ py = y)) : (b.set x y s st).get px py = b.get px py := by
  rw [Buffer.get_set, if_neg h]

theorem Buffer.get_ifset_ne (b : Buffer) (c : Prop) [Decidable c] (x y : Nat) (s : String)
    (st : Style) (px py : Nat) (h : ¬(px = x ∧ py = y)) :
    (if c then b.set x y s st else b).get px py = b.get px py := by
  split
  · exact Buffer.get_set_ne b x y s st px py h
  · rfl

theorem Block.lx_le_one (blk : Block) : blk.lx ≤ 1 := by
  rw [Block.lx]
  split <;> omega

theorem Block.rx_le_one (blk : Block) : blk.rx ≤ 1 := by
  rw [Block.rx]
  split <;> omega

theorem Block.lx_of_left (blk : Block) (h : blk.borders.left = true) : blk.lx = 1 := by
  rw [Block.lx, if_pos]
  simp [h]

theorem Block.rx_of_right (blk : Block) (h : blk.borders.right = true) : blk.rx = 1 := by
  rw [Block.rx, if_pos]
  simp [h]

theorem drawCorners_get_TL (blk : Block) (b : Buffer)
    (hw : 2 ≤ blk.area.width) (hh : 2 ≤ blk.area.height) :
    (drawCorners blk b).get blk.area.left blk.area.top =
      if (blk.borders.left && blk.borders.top) = true then
        ⟨line.TOP_LEFT, blk.border_style⟩
      else b.get blk.area.left blk.area.top := by
  rw [drawCorners]
  simp only [Rect.left, Rect.right, Rect.top, Rect.bottom, Borders.contains_LT,
    Borders.contains_RT, Borders.contains_LB, Borders.contains_RB]
  rw [Buffer.get_ifset_ne _ _ _ _ _ _ _ _ (by omega),
    Buffer.get_ifset_ne _ _ _ _ _ _ _ _ (by omega),
    Buffer.get_ifset_ne _ _ _ _ _ _ _ _ (by omega)]
  by_cases hc : (blk.borders.left && blk.borders.top) = true
  · rw [if_pos hc, if_pos hc, Buffer.get_set, if_pos ⟨rfl, rfl⟩]
  · rw [if_neg hc, if_neg hc]

theorem drawCorners_get_TR (blk : Block) (b : Buffer)
    (hw : 2 ≤ blk.area.width) (hh : 2 ≤ blk.area.height) :
    (drawCorners blk b).get (blk.area.right - 1) blk.area.top =
      if (blk.borders.right && blk.borders.top) = true then
        ⟨line.TOP_RIGHT, blk.border_style⟩
      else b.get (blk.area.right - 1) blk.area.top := by
  rw [drawCorners]
  simp only [Rect.left, Rect.right, Rect.top, Rect.bottom, Borders.contains_LT,
    Borders.contains_RT, Borders.contains_LB, Borders.contains_RB]
  rw [Buffer.get_ifset_ne _ _ _ _ _ _ _ _ (by omega),
    Buffer.get_ifset_ne _ _ _ _ _ _ _ _ (by omega)]
  by_cases hc : (blk.borders.right && blk.borders.top) = true
  · rw [if_pos hc, if_pos hc, Buffer.get_set, if_pos ⟨rfl, rfl⟩]
  · rw [if_neg hc, if_neg hc, Buffer.get_ifset_ne _ _ _ _ _ _ _ _ (by omega)]

theorem drawCorners_get_BL (blk : Block) (b : Buffer)
    (hw : 2 ≤ blk.area.width) (hh : 2 ≤ blk.area.height) :
    (drawCorners blk b).get blk.area.left (blk.area.bottom - 1) =
      if (blk.borders.left && blk.borders.bottom) = true then
        ⟨line.BOTTOM_LEFT, blk.border_style⟩
      else b.get blk.area.left (blk.area.bottom - 1) := by
  rw [drawCorners]
  simp only [Rect.left, Rect.right, Rect.top, Rect.bottom, Borders.contains_LT,
    Borders.contains_RT, Borders.contains_LB, Borders.contains_RB]
  rw [Buffer.get_ifset_ne _ _ _ _ _ _ _ _ (by omega)]
  by_cases hc : (blk.borders.left && blk.borders.bottom) = true
  · rw [if_pos hc, if_pos hc, Buffer.get_set, if_pos ⟨rfl, rfl⟩]
  · rw [if_neg hc, if_neg hc, Buffer.get_ifset_ne _ _ _ _ _ _ _ _ (by omega),
      Buffer.get_ifset_ne _ _ _ _ _ _ _ _ (by omega)]

theorem drawCorners_get_BR (blk : Block) (b : Buffer)
    (hw : 2 ≤ blk.area.width) (hh : 2 ≤ blk.area.height) :
    (drawCorners blk b).get (blk.area.right - 1) (blk.area.bottom - 1) =
      if (blk.borders.right && blk.borders.bottom) = true then
        ⟨line.BOTTOM_RIGHT, blk.border_style⟩
      else b.get (blk.area.right - 1) (blk.area.bottom - 1) := by
  rw [drawCorners]
  simp only [Rect.left, Rect.right, Rect.top, Rect.bottom, Borders.contains_LT,
    Borders.contains_RT, Borders.contains_LB, Borders.contains_RB]
  by_cases hc : (blk.borders.right && blk.borders.bottom) = true
  · rw [if_pos hc, Buffer.get_set, if_pos ⟨rfl, rfl⟩, if_pos hc]
  · rw [if_neg hc, Buffer.get_ifset_ne _ _ _ _ _ _ _ _ (by omega),
      Buffer.get_ifset_ne _ _ _ _ _ _ _ _ (by omega),
      Buffer.get_ifset_ne _ _ _ _ _ _ _ _ (by omega), if_neg hc]

theorem titleWrite?_top_left_none (blk : Block) (h : blk.borders.left = true) :
    titleWrite? blk blk.area.left blk.area.top = none := by
  cases hc : titleWrite? blk blk.area.left blk.area.top with
  | none => rfl
  | some c =>
    obtain ⟨h1, h2, h3, _⟩ := titleWrite?_bounds blk _ _ c hc
    have := blk.lx_of_left h
    omega

theorem titleWrite?_top_right_none (blk : Block) (h : blk.borders.right = true) :
    titleWrite? blk (blk.area.right - 1) blk.area.top = none := by
  cases hc : titleWrite? blk (blk.area.right - 1) blk.area.top with
  | none => rfl
  | some c =>
    obtain ⟨h1, h2, h3, _⟩ := titleWrite?_bounds blk _ _ c hc
    have hrx := blk.rx_of_right h
    have hlx := blk.lx_le_one
    rw [Rect.left] at h2 h3
    rw [Rect.right] at h2 h3
    omega

theorem titleWrite?_bottom_none (blk : Block) (px : Nat) (hh : 2 ≤ blk.area.height) :
    titleWrite? blk px (blk.area.bottom - 1) = none := by
  cases hc : titleWrite? blk px (blk.area.bottom - 1) with
  | none => rfl
  | some c =>
    obtain ⟨h1, _, _, _⟩ := titleWrite?_bounds blk _ _ c hc
    rw [Rect.top] at h1
    rw [Rect.bottom] at h1
    omega

/-- C2: after Block::draw on an area at least 2 by 2, each corner cell
holds the corresponding corner glyph in the border style exactly when both
adjacent edges are enabled; when either edge is disabled the corner step
forces nothing, and the corner cell is exactly what the pipeline without
the corner step (background, edges, title) leaves there. -/
theorem corner_rule (blk : Block) (buf : Buffer)
    (hw : 2 ≤ blk.area.width) (hh : 2 ≤ blk.area.height) :
    ((blk.borders.left && blk.borders.top) = true →
      (Block.draw blk buf).get blk.area.left blk.area.top =
        ⟨line.TOP_LEFT, blk.border_style⟩) ∧
    ((blk.borders.right && blk.borders.top) = true →
      (Block.draw blk buf).get (blk.area.right - 1) blk.area.top =
        ⟨line.TOP_RIGHT, blk.border_style⟩) ∧
    ((blk.borders.left && blk.borders.bottom) = true →
      (Block.draw blk buf).get blk.area.left (blk.area.bottom - 1) =
        ⟨line.BOTTOM_LEFT, blk.border_style⟩) ∧
    ((blk.borders.right && blk.borders.bottom) = true →
      (Block.draw blk buf).get (blk.area.right - 1) (blk.area.bottom - 1) =
        ⟨line.BOTTOM_RIGHT, blk.border_style⟩) ∧
    ((blk.borders.left && blk.borders.top) = false →
      (Block.draw blk buf).get blk.area.left blk.area.top =
        (drawNoCorners blk buf).get blk.area.left blk.area.top) ∧
    ((blk.borders.right && blk.borders.top) = false →
      (Block.draw blk buf).get (blk.area.right - 1) blk.area.top =
        (drawNoCorners blk buf).get (blk.area.right - 1) blk.area.top) ∧
    ((blk.borders.left && blk.borders.bottom) = false →
      (Block.draw blk buf).get blk.area.left (blk.area.bottom - 1) =
        (drawNoCorners blk buf).get blk.area.left (blk.area.bottom - 1)) ∧
    ((blk.borders.right && blk.borders.bottom) = false →
      (Block.draw blk buf).get (blk.area.right - 1) (blk.area.bottom - 1) =
        (drawNoCorners blk buf).get (blk.area.right - 1) (blk.area.bottom - 1)) := by
  have hdraw : Block.draw blk buf =
      drawTitle blk (drawCorners blk (drawSides blk (drawBackground blk buf))) := by
    rw [Block.draw, if_neg (by omega)]
  refine ⟨?_, ?_, ?_, ?_, ?_, ?_, ?_, ?_⟩
  · intro hc
    rw [Bool.and_eq_true] at hc
    rw [hdraw, drawTitle_get, titleWrite?_top_left_none blk hc.1, Option.getD_none,
      drawCorners_get_TL _ _ hw hh, if_pos (by simp [hc.1, hc.2])]
  · intro hc
    rw [Bool.and_eq_true] at hc
    rw [hdraw, drawTitle_get, titleWrite?_top_right_none blk hc.1, Option.getD_none,
      drawCorners_get_TR _ _ hw hh, if_pos (by simp [hc.1, hc.2])]
  · intro hc
    rw [Bool.and_eq_true] at hc
    rw [hdraw, drawTitle_get, titleWrite?_bottom_none blk _ hh, Option.getD_none,
      drawCorners_get_BL _ _ hw hh, if_pos (by simp [hc.1, hc.2])]
  · intro hc
    rw [Bool.and_eq_true] at hc
    rw [hdraw, drawTitle_get, titleWrite?_bottom_none blk _ hh, Option.getD_none,
      drawCorners_get_BR _ _ hw hh, if_pos (by simp [hc.1, hc.2])]
  · intro hc
    rw [hdraw, drawNoCorners, drawTitle_get, drawTitle_get,
      drawCorners_get_TL _ _ hw hh, if_neg (by simp [hc])]
  · intro hc
    rw [hdraw, drawNoCorners, drawTitle_get, drawTitle_get,
      drawCorners_get_TR _ _ hw hh, if_neg (by simp [hc])]
  · intro hc
    rw [hdraw, drawNoCorners, drawTitle_get, drawTitle_get,
      drawCorners_get_BL _ _ hw hh, if_neg (by simp [hc])]
  · intro hc
    rw [hdraw, drawNoCorners, drawTitle_get, drawTitle_get,
      drawCorners_get_BR _ _ hw hh, if_neg (by simp [hc])]

/-- Witness for C2: the all-borders fixture shows a forced top-left glyph,
and the fixture without a RIGHT border shows the untouched top-right
corner. -/
theorem corner_rule_witness :
    2 ≤ wBlockAll.area.width ∧ 2 ≤ wBlockAll.area.height ∧
      (Block.draw wBlockAll blankBuffer).get wBlockAll.area.left wBlockAll.area.top =
        ⟨line.TOP_LEFT, wBlockAll.border_style⟩ ∧
      (Block.draw wFlatBlock blankBuffer).get (wFlatBlock.area.right - 1)
          wFlatBlock.area.top =
        (drawNoCorners wFlatBlock blankBuffer).get (wFlatBlock.area.right - 1)
          wFlatBlock.area.top :=
  ⟨by decide, by decide,
    (corner_rule wBlockAll blankBuffer (by decide) (by decide)).1 (by decide),
    (corner_rule wFlatBlock blankBuffer (by decide) (by decide)).2.2.2.2.2.1 (by decide)⟩

theorem drawTitle_eraseTitle (blk : Block) (b : Buffer) :
    drawTitle (eraseTitle blk) b = b := by
  rw [drawTitle]
  split <;> rfl

theorem eraseTitle_area (blk : Block) : (eraseTitle blk).area = blk.area := rfl

theorem draw_eraseTitle (blk : Block) (buf : Buffer) :
    Block.draw (eraseTitle blk) buf =
      if blk.area.width < 2 ∨ blk.area.height < 2 then buf
      else drawCorners blk (drawSides blk (drawBackground blk buf)) := by
  rw [Block.draw]
  simp only [eraseTitle_area]
  by_cases h : blk.area.width < 2 ∨ blk.area.height < 2
  · rw [if_pos h, if_pos h]
  · rw [if_neg h, if_neg h, drawTitle_eraseTitle]
    rfl

theorem eraseTitle_eq_self (blk : Block) (ht : blk.title = none) :
    eraseTitle blk = blk := by
  cases blk
  simp only [eraseTitle]
  simp_all

/-- C3: the title is painted only when a title is set and the width exceeds
2 (otherwise draw equals the draw of the same block without a title); when
painted it is exactly a set_stringn at the top row starting one column in
when the LEFT border is enabled, with a budget of the width minus one
column per enabled LEFT and RIGHT border; and any cell that differs from
the title-free draw lies on that top-row window and carries the title
style, not the border style. -/
theorem title_rule (blk : Block) (buf : Buffer) :
    (blk.title = none ∨ blk.area.width ≤ 2 →
      Block.draw blk buf = Block.draw (eraseTitle blk) buf) ∧
    (∀ t, blk.title = some t → 2 < blk.area.width → 2 ≤ blk.area.height →
      Block.draw blk buf =
        set_stringn (Block.draw (eraseTitle blk) buf) (blk.area.left + blk.lx)
          blk.area.top t (blk.area.width - blk.lx - blk.rx) blk.title_style) ∧
    (∀ px py,
      (Block.draw blk buf).get px py = (Block.draw (eraseTitle blk) buf).get px py ∨
        (((Block.draw blk buf).get px py).style = blk.title_style ∧
          py = blk.area.top ∧ blk.area.left + blk.lx ≤ px ∧
          px < blk.area.left + blk.lx + (blk.area.width - blk.lx - blk.rx))) := by
  refine ⟨?_, ?_, ?_⟩
  · rintro (ht | hw)
    · rw [eraseTitle_eq_self blk ht]
    · rw [draw_eraseTitle, Block.draw]
      by_cases h : blk.area.width < 2 ∨ blk.area.height < 2
      · rw [if_pos h, if_pos h]
      · rw [if_neg h, if_neg h, drawTitle, if_neg (by omega)]
  · intro t ht hw hh
    rw [draw_eraseTitle, if_neg (by omega), Block.draw, if_neg (by omega),
      drawTitle, if_pos hw, ht]
  · intro px py
    by_cases h : blk.area.width < 2 ∨ blk.area.height < 2
    · left
      rw [draw_eraseTitle, if_pos h, Block.draw, if_pos h]
    · rw [draw_eraseTitle, if_neg h, Block.draw, if_neg h, drawTitle_get]
      cases hc : titleWrite? blk px py with
      | none => left; rfl
      | some c =>
        right
        obtain ⟨h1, h2, h3, h4⟩ := titleWrite?_bounds blk px py c hc
        exact ⟨h4, h1, h2, h3⟩

/-- Witness for C3: the concrete all-borders fixture paints its title as a
set_stringn with budget three starting one column in, in the title
style. -/
theorem title_rule_witness :
    wBlockAll.title = some [⟨"X", 1⟩] ∧ 2 < wBlockAll.area.width ∧
      2 ≤ wBlockAll.area.height ∧
      Block.draw wBlockAll blankBuffer =
        set_stringn (Block.draw (eraseTitle wBlockAll) blankBuffer)
          (wBlockAll.area.left + wBlockAll.lx) wBlockAll.area.top [⟨"X", 1⟩]
          (wBlockAll.area.width - wBlockAll.lx - wBlockAll.rx) wBlockAll.title_style :=
  ⟨rfl, by decide, by decide,
    (title_rule wBlockAll blankBuffer).2.1 [⟨"X", 1⟩] rfl (by decide) (by decide)⟩

end Itui
